import Mathlib

/-!
# Verification of the `snake_shift` rename engine

This file is a shallow embedding, in Lean 4, of the rename engine of the
`python_case` repository (package `snake_shift`, with the import analyzer
shared with `rename_py/module_detection.py`), together with theorems that
settle the specification claims about it.

Python strings are modelled as lists of Unicode code points (`List Nat`);
`pystr` translates a Lean string literal to that representation.  The
character classes `[A-Z]`, `[a-z]`, `[0-9]` of the regexes in
`naming.py`, and Python's ASCII case conversions, are modelled by
arithmetic on code points.

Python's `re.sub` on the two patterns used by `naming.py` is modelled by
direct scans (`sub1`, `sub2`): both patterns insert a single `_` at a
boundary that is characterised by the neighbouring two or three
characters, and successive non-overlapping matches of those patterns
cannot interfere, so the global substitution equals the pointwise scan.
-/

namespace SnakeShift

/-- A Python string, as its list of Unicode code points. -/
abbrev PyStr := List Nat

/-- Code points of a Lean string literal, used to write concrete inputs. -/
def pystr (s : String) : PyStr := s.data.map Char.toNat

/-- The code point of `_`. -/
def und : Nat := 95

/-- Membership in the regex class `[A-Z]` / Python `str.isupper` for one ASCII char. -/
def isUpperN (n : Nat) : Bool := decide (65 ≤ n ∧ n ≤ 90)

/-- Membership in the regex class `[a-z]`. -/
def isLowerN (n : Nat) : Bool := decide (97 ≤ n ∧ n ≤ 122)

/-- Membership in the regex class `[0-9]`. -/
def isDigitN (n : Nat) : Bool := decide (48 ≤ n ∧ n ≤ 57)

/-- An ASCII letter (a cased character in the ASCII fragment). -/
def isAlphaN (n : Nat) : Bool := isUpperN n || isLowerN n

/-- Python `str.lower`, one character, ASCII fragment. -/
def pyLowerN (n : Nat) : Nat := if isUpperN n then n + 32 else n

/-- Python `str.upper`, one character, ASCII fragment. -/
def pyUpperN (n : Nat) : Nat := if isLowerN n then n - 32 else n

/-- `re.sub(r"([a-z0-9])([A-Z])", r"\1_\2", s)`: insert `_` between a
lowercase/digit character and an uppercase character. -/
def sub1 : PyStr → PyStr
  | [] => []
  | a :: rest =>
    match rest with
    | [] => [a]
    | b :: _ =>
      if (isLowerN a || isDigitN a) && isUpperN b then a :: und :: sub1 rest
      else a :: sub1 rest

/-- `re.sub(r"([A-Z]+)([A-Z][a-z])", r"\1_\2", s)`: insert `_` between two
uppercase characters when the second is followed by a lowercase character. -/
def sub2 : PyStr → PyStr
  | [] => []
  | a :: rest =>
    match rest with
    | b :: c :: _ =>
      if isUpperN a && isUpperN b && isLowerN c then a :: und :: sub2 rest
      else a :: sub2 rest
    | _ => a :: rest

/-- `name.lstrip('_')`. -/
def lstripU (l : PyStr) : PyStr := l.dropWhile (· == und)

/-- `len(name) - len(name.lstrip('_'))`, the number of leading underscores. -/
def leadingU (l : PyStr) : Nat := l.length - (lstripU l).length

/-- `name.rstrip('_')`. -/
def rstripU (l : PyStr) : PyStr := (l.reverse.dropWhile (· == und)).reverse

/-- `len(name) - len(name.rstrip('_'))`, the number of trailing underscores. -/
def trailingU (l : PyStr) : Nat := l.length - (rstripU l).length

/-- `name.strip('_')`. -/
def stripU (l : PyStr) : PyStr := rstripU (lstripU l)

/-- `name.startswith('__')`. -/
def startsWithUU : PyStr → Bool
  | a :: b :: _ => a == und && b == und
  | _ => false

/-- `name.endswith('__')`. -/
def endsWithUU (l : PyStr) : Bool := startsWithUU l.reverse

/-- `name.startswith('_')`. -/
def startsWithU : PyStr → Bool
  | a :: _ => a == und
  | _ => false

/-- `name.endswith('_')`. -/
def endsWithU (l : PyStr) : Bool := startsWithU l.reverse

/-- `to_snake_case` from `snake_shift/naming.py` (lines 59-76). -/
def toSnakeN (name : PyStr) : PyStr :=
  if name = [] then []
  else if startsWithUU name && endsWithUU name then name
  else
    let lead := leadingU name
    let core := lstripU name
    let s2 := sub2 (sub1 core)
    List.replicate lead und ++ lstripU (s2.map pyLowerN)

/-- Python `str.isupper` for a whole string: at least one cased character and
every cased character uppercase (ASCII fragment). -/
def pyIsUpperStr (l : PyStr) : Bool :=
  l.any isAlphaN && l.all (fun c => !isAlphaN c || isUpperN c)

/-- Python `str.capitalize`: first character uppercased, the rest lowercased. -/
def pyCapitalize : PyStr → PyStr
  | [] => []
  | c :: rest => pyUpperN c :: rest.map pyLowerN

/-- The per-part conversion in `_snake_to_pascal_preserving_acronyms`:
an all-uppercase part of length `> 1` (an acronym) is kept, any other part
is capitalized. -/
def pascalPart (part : PyStr) : PyStr :=
  if pyIsUpperStr part && decide (part.length > 1) then part else pyCapitalize part

/-- `_snake_to_pascal_preserving_acronyms` from `snake_shift/naming.py`
(lines 8-33): split on `_` after the two regex passes, convert each
non-empty part, and join. -/
def snakeToPascalPreservingAcronyms (l : PyStr) : PyStr :=
  if l = [] then []
  else
    let s2 := sub2 (sub1 l)
    ((s2.splitOn und).filter (fun p => !p.isEmpty)).flatMap pascalPart

/-- `to_pascal_case` from `snake_shift/naming.py` (lines 79-103). -/
def toPascalN (name : PyStr) : PyStr :=
  if name = [] then []
  else if startsWithU name || endsWithU name then
    let lead := leadingU name
    let trail := trailingU name
    let core := stripU name
    if core = [] then name
    else List.replicate lead und ++ snakeToPascalPreservingAcronyms core
           ++ List.replicate trail und
  else snakeToPascalPreservingAcronyms name

/-- `_is_pascalcase` from `snake_shift/naming.py` (lines 36-40). -/
def isPascalcase (l : PyStr) : Bool :=
  match l with
  | [] => false
  | c :: _ =>
    decide (2 ≤ l.length) && isUpperN c && !pyIsUpperStr l && !(l.contains und)


/-! ## The concrete syntax tree

The fragment of the LibCST node language that the analysed sources use:
names, attribute accesses, calls, integer literals; class and function
definitions, assignments, expression statements, `pass`, and the two import
statement forms.  `attr` of an attribute, the `name` of a definition, each
parameter name, and both halves of an import alias are `Name` nodes in
LibCST and are therefore visited by the generic `leave_Name`. -/

inductive Expr where
  | name (value : PyStr)
  | attribute (value : Expr) (attr : PyStr)
  | call (func : Expr) (args : List Expr)
  | intLit (n : Nat)

/-- An `ImportAlias` node: the dotted name (a `Name` or `Attribute` chain) and
the optional `as` alias. -/
structure ImportAlias where
  name : Expr
  asname : Option PyStr

inductive Stmt where
  | classDef (name : PyStr) (body : List Stmt)
  | functionDef (name : PyStr) (params : List PyStr) (body : List Stmt)
  | assign (target : Expr) (value : Expr)
  | exprStmt (e : Expr)
  | passStmt
  | importStmt (names : List ImportAlias)
  | importFrom (relative : Bool) (module : Option Expr) (names : List ImportAlias)

structure Module where
  body : List Stmt

/-! ## Import analysis (`module_detection.py`)

`_is_external_module` consults the host environment (`sys.modules`,
`importlib.util.find_spec`) before falling back to a static denylist; it is
modelled as an oracle `isExt` on the root module name.  The denylist itself
is embedded below as one concrete oracle. -/

/-- `_get_module_name_from_node` (module_detection.py lines 11-25), as the
dotted parts, root first.  A base node that is neither a `Name` nor an
`Attribute` contributes nothing, as in the source. -/
def getModuleParts : Expr → List PyStr
  | .name v => [v]
  | .attribute v a => getModuleParts v ++ [a]
  | _ => []

/-- The joined dotted module name (`'.'.join(...)`); 46 is `.`. -/
def dottedName (e : Expr) : PyStr := List.intercalate [46] (getModuleParts e)

/-- `module_name.split('.')[0]`. -/
def rootModule (e : Expr) : PyStr :=
  match getModuleParts e with
  | [] => []
  | p :: _ => p

/-- `alias.name.value`: import aliases in `from`-imports are plain `Name`
nodes, whose `.value` is the identifier. -/
def nameValue : Expr → PyStr
  | .name v => v
  | _ => []

/-- Add to a Python `set` modelled as a duplicate-free list. -/
def setAdd (s : List PyStr) (x : PyStr) : List PyStr :=
  if s.contains x then s else x :: s

/-- The state of `ImportAnalyzer`: `external_modules`, `internal_aliases`
(latest assignment first, so `lookup` sees the last write), and
`relative_imports`. -/
structure AnalyzerState where
  externalModules : List PyStr
  internalAliases : List (PyStr × PyStr)
  relativeImports : List PyStr

/-- The loop body of the relative branch of `visit_ImportFrom`
(module_detection.py lines 96-100): record
`internal_aliases[alias_name] = imported_name`. -/
def recordAlias (st : AnalyzerState) (al : ImportAlias) : AnalyzerState :=
  let imported := nameValue al.name
  let aliasName := al.asname.getD imported
  { st with internalAliases := (aliasName, imported) :: st.internalAliases }

/-- The loop body of the external branch of `visit_ImportFrom`
(module_detection.py lines 109-114): names imported from an external module
are external themselves. -/
def addExternalAlias (st : AnalyzerState) (al : ImportAlias) : AnalyzerState :=
  let imported := nameValue al.name
  let aliasName := al.asname.getD imported
  { st with externalModules := setAdd st.externalModules aliasName }

/-- `ImportAnalyzer.visit_ImportFrom` (module_detection.py lines 87-114). -/
def analyzeImportFrom (isExt : PyStr → Bool) (st : AnalyzerState) (relative : Bool)
    (module : Option Expr) (names : List ImportAlias) : AnalyzerState :=
  match module with
  | none => st
  | some m =>
    if relative then
      let st := { st with relativeImports := setAdd st.relativeImports (dottedName m) }
      names.foldl recordAlias st
    else
      let root := rootModule m
      if isExt root then
        let st := { st with externalModules := setAdd st.externalModules root }
        names.foldl addExternalAlias st
      else st

/-- `ImportAnalyzer.visit_Import` (module_detection.py lines 116-124). -/
def analyzeImport (isExt : PyStr → Bool) (st : AnalyzerState)
    (names : List ImportAlias) : AnalyzerState :=
  names.foldl (fun st al =>
    let root := rootModule al.name
    if isExt root then
      { st with externalModules := setAdd st.externalModules (al.asname.getD root) }
    else st) st

mutual

/-- The `CSTVisitor` traversal of `ImportAnalyzer`: import statements are
collected wherever they occur, including inside class and function bodies. -/
def analyzeStmt (isExt : PyStr → Bool) (st : AnalyzerState) : Stmt → AnalyzerState
  | .classDef _ body => analyzeStmts isExt st body
  | .functionDef _ _ body => analyzeStmts isExt st body
  | .assign _ _ => st
  | .exprStmt _ => st
  | .passStmt => st
  | .importStmt names => analyzeImport isExt st names
  | .importFrom rel module names => analyzeImportFrom isExt st rel module names

def analyzeStmts (isExt : PyStr → Bool) (st : AnalyzerState) : List Stmt → AnalyzerState
  | [] => st
  | s :: rest => analyzeStmts isExt (analyzeStmt isExt st s) rest

end

/-- Run `ImportAnalyzer` over a module, from its freshly-initialised state. -/
def analyzeModule (isExt : PyStr → Bool) (m : Module) : AnalyzerState :=
  analyzeStmts isExt ⟨[], [], []⟩ m.body

/-- The static fallback denylist `common_external` of `_is_external_module`
(module_detection.py lines 64-69). -/
def commonExternal : List PyStr :=
  [pystr "numpy", pystr "torch", pystr "tensorflow", pystr "sklearn",
   pystr "pandas", pystr "matplotlib", pystr "scipy", pystr "keras",
   pystr "cv2", pystr "PIL", pystr "requests", pystr "flask",
   pystr "django", pystr "boto3", pystr "pymongo", pystr "sqlalchemy",
   pystr "redis", pystr "celery", pystr "click", pystr "typer",
   pystr "fastapi", pystr "pydantic"]

/-- The origin oracle of an environment where the imported packages are
neither loaded nor installed: `_is_external_module` then answers through the
static denylist (module_detection.py lines 61-71). -/
def denylistIsExternal (root : PyStr) : Bool := commonExternal.contains root

/-! ## The rewriter (`transformer.py`)

`RenameTransformer` keeps a scope stack `renamed_vars` (modelled innermost
frame first; Python keeps the innermost last and iterates `reversed`),
the sets `class_names` and `function_names` of already-assigned new
definition names, and the analyzer's classification.  `internal_aliases` is
stored by `__init__` but never read afterwards, and `processed_names` is
created empty and no statement ever adds to it, so the guard
`id(updated_node) in self.processed_names` in `leave_Name` never fires;
both facts are mirrored here. -/

/-- One scope frame: rename decisions, latest first (a Python dict written
with `scope[name] = new`, read with `scope[name]`). -/
abbrev Frame := List (PyStr × PyStr)

structure TState where
  externalModules : List PyStr
  internalAliases : List (PyStr × PyStr)
  renamedVars : List Frame
  classNames : List PyStr
  functionNames : List PyStr

/-- `for scope in reversed(self.renamed_vars): if name in scope: ...` -/
def scopesLookup : List Frame → PyStr → Option PyStr
  | [], _ => none
  | f :: rest, n =>
    match f.lookup n with
    | some v => some v
    | none => scopesLookup rest n

/-- `self.renamed_vars[-1][old] = new`. -/
def recordRename (st : TState) (old newName : PyStr) : TState :=
  match st.renamedVars with
  | f :: rest => { st with renamedVars := ((old, newName) :: f) :: rest }
  | [] => st

/-- `self.renamed_vars.append({})`. -/
def pushScope (st : TState) : TState :=
  { st with renamedVars := [] :: st.renamedVars }

/-- `self.renamed_vars.pop()`. -/
def popScope (st : TState) : TState :=
  { st with renamedVars := st.renamedVars.tail }

/-- The test of `visit_Attribute` (transformer.py lines 95-98): the receiver
is a plain `Name` that is in `external_modules`. -/
def receiverExternal (st : TState) : Expr → Bool
  | .name m => st.externalModules.contains m
  | _ => false

/-- `RenameTransformer.leave_Name` (transformer.py lines 57-91). -/
def leaveName (st : TState) (name : PyStr) : TState × PyStr :=
  match scopesLookup st.renamedVars name with
  | some newName => (st, newName)
  | none =>
    if st.externalModules.contains name || st.classNames.contains name
        || st.functionNames.contains name then
      (st, name)
    else if !name.isEmpty && isUpperN (name.headD 0) then
      let newName := toPascalN name
      if name ≠ newName then (recordRename st name newName, newName) else (st, name)
    else
      let newName := toSnakeN name
      if name ≠ newName then (recordRename st name newName, newName) else (st, name)

mutual

/-- The transformer traversal over expressions.  For an `Attribute`,
`visit_Attribute` (lines 93-99) suppresses the children when the receiver is
a plain name classified external; otherwise the receiver and then the `attr`
`Name` child are visited, and `leave_Attribute` (lines 101-116) runs on the
updated node: receiver still external ⇒ unchanged, receiver exactly `self`
⇒ `to_snake_case` on the updated attribute, otherwise unchanged. -/
def transformExpr (st : TState) : Expr → TState × Expr
  | .name v =>
    let r := leaveName st v
    (r.1, .name r.2)
  | .attribute value attr =>
    if receiverExternal st value then
      (st, .attribute value attr)
    else
      let rv := transformExpr st value
      let ra := leaveName rv.1 attr
      match rv.2 with
      | .name m =>
        if ra.1.externalModules.contains m then (ra.1, .attribute rv.2 ra.2)
        else if m = pystr "self" then (ra.1, .attribute rv.2 (toSnakeN ra.2))
        else (ra.1, .attribute rv.2 ra.2)
      | _ => (ra.1, .attribute rv.2 ra.2)
  | .call f args =>
    let rf := transformExpr st f
    let ra := transformExprs rf.1 args
    (ra.1, .call rf.2 ra.2)
  | .intLit n => (st, .intLit n)

def transformExprs (st : TState) : List Expr → TState × List Expr
  | [] => (st, [])
  | e :: rest =>
    let r := transformExpr st e
    let rr := transformExprs r.1 rest
    (rr.1, r.2 :: rr.2)

end

/-- The traversal of one `ImportAlias`: its `name` child (a `Name` or
`Attribute` expression) and the `Name` inside its `AsName`. -/
def transformAlias (st : TState) (al : ImportAlias) : TState × ImportAlias :=
  let rn := transformExpr st al.name
  match al.asname with
  | some a =>
    let ra := leaveName rn.1 a
    (ra.1, ⟨rn.2, some ra.2⟩)
  | none => (rn.1, ⟨rn.2, none⟩)

def transformAliases (st : TState) : List ImportAlias → TState × List ImportAlias
  | [] => (st, [])
  | al :: rest =>
    let r := transformAlias st al
    let rr := transformAliases r.1 rest
    (rr.1, r.2 :: rr.2)

/-- `leave_Name` over a list of parameter `Name` nodes, in order. -/
def leaveNames (st : TState) : List PyStr → TState × List PyStr
  | [] => (st, [])
  | n :: rest =>
    let r := leaveName st n
    let rr := leaveNames r.1 rest
    (rr.1, r.2 :: rr.2)

/-- The parameter loop of `leave_FunctionDef` (lines 44-51): each updated
parameter name is `to_snake_case`d again, and a changed one is recorded in
the innermost (function) frame. -/
def renameParams (st : TState) : List PyStr → TState × List PyStr
  | [] => (st, [])
  | p :: rest =>
    let newP := toSnakeN p
    let st1 := if p ≠ newP then recordRename st p newP else st
    let r := renameParams st1 rest
    (r.1, newP :: r.2)

mutual

/-- The transformer traversal over statements.

For a `ClassDef`: `visit_ClassDef` pushes a fresh scope frame, the `name`
child is then visited by `leave_Name` inside that frame, the body follows,
and `leave_ClassDef` (lines 26-31) computes `to_pascal_case` of the
*original* name, adds it to `class_names`, pops the frame and overrides the
name child with the new name.

For a `FunctionDef`: symmetric, with `to_snake_case`, `function_names`, and
the parameter loop of `leave_FunctionDef` before the pop. -/
def transformStmt (st : TState) : Stmt → TState × Stmt
  | .classDef name body =>
    let st1 := pushScope st
    let rn := leaveName st1 name
    let rb := transformStmts rn.1 body
    let newName := toPascalN name
    let st2 := { rb.1 with classNames := setAdd rb.1.classNames newName }
    (popScope st2, .classDef newName rb.2)
  | .functionDef name params body =>
    let st1 := pushScope st
    let rn := leaveName st1 name
    let rp := leaveNames rn.1 params
    let rb := transformStmts rp.1 body
    let newName := toSnakeN name
    let st2 := { rb.1 with functionNames := setAdd rb.1.functionNames newName }
    let rp2 := renameParams st2 rp.2
    (popScope rp2.1, .functionDef newName rp2.2 rb.2)
  | .assign target value =>
    let rt := transformExpr st target
    let rv := transformExpr rt.1 value
    (rv.1, .assign rt.2 rv.2)
  | .exprStmt e =>
    let r := transformExpr st e
    (r.1, .exprStmt r.2)
  | .passStmt => (st, .passStmt)
  | .importStmt names =>
    let r := transformAliases st names
    (r.1, .importStmt r.2)
  | .importFrom rel module names =>
    let rm : TState × Option Expr :=
      match module with
      | some m =>
        let r := transformExpr st m
        (r.1, some r.2)
      | none => (st, none)
    let rn := transformAliases rm.1 names
    (rn.1, .importFrom rel rm.2 rn.2)

def transformStmts (st : TState) : List Stmt → TState × List Stmt
  | [] => (st, [])
  | s :: rest =>
    let r := transformStmt st s
    let rr := transformStmts r.1 rest
    (rr.1, r.2 :: rr.2)

end

/-- The fresh transformer state built by `RenameTransformer.__init__` from
the analyzer's results: `renamed_vars = [{}]`, empty name sets. -/
def initialTState (a : AnalyzerState) : TState :=
  { externalModules := a.externalModules, internalAliases := a.internalAliases,
    renamedVars := [[]], classNames := [], functionNames := [] }

/-- `refactor_source` after a successful module parse (core.py lines 64-74):
one analyzer pass, then one transformer pass over the same tree. -/
def refactorModuleTree (isExt : PyStr → Bool) (m : Module) : Module :=
  ⟨(transformStmts (initialTState (analyzeModule isExt m)) m.body).2⟩


/-! ## `refactor_source` (`core.py` lines 35-74)

Parsing and code generation belong to LibCST, not to this repository; they
are abstracted as oracles: `parseExpression` / `parseModule` may succeed
with a tree or fail (raise), and `renderExpr` / `renderModule` produce
`new_tree.code`.  The control flow around them — the blank-input early
return, the `(`-prefix dispatch, the module-parse fallback and the
`ParseError` — is taken from the source. -/

/-- Python `str.strip()` whitespace (ASCII fragment: space, tab, newline,
carriage return, vertical tab, form feed). -/
def pyIsSpace (c : Char) : Bool :=
  c == ' ' || c == '\t' || c == '\n' || c == '\r' || c == '\x0b' || c == '\x0c'

/-- `source.strip()`, as a list of characters. -/
def pyStripStr (s : String) : List Char :=
  ((s.data.dropWhile pyIsSpace).reverse.dropWhile pyIsSpace).reverse

/-- A successful LibCST parse: `parse_expression` yields an expression node,
`parse_module` a module. -/
inductive ParsedTree where
  | exprTree (e : Expr)
  | modTree (m : Module)

/-- `tree.visit(ImportAnalyzer()); tree.visit(RenameTransformer(...))` for
either kind of tree.  An expression contains no import statements, so the
analyzer pass leaves its state empty there. -/
def refactorTree (isExt : PyStr → Bool) : ParsedTree → ParsedTree
  | .exprTree e => .exprTree (transformExpr (initialTState ⟨[], [], []⟩) e).2
  | .modTree m => .modTree (refactorModuleTree isExt m)

/-- `refactor_source` (core.py lines 35-74): blank input is returned as is;
otherwise the first parse attempt is `parse_expression` when the stripped
source starts with `(` and `parse_module` otherwise; on its failure
`parse_module` is tried (again); if that also fails, `ParseError` is
raised, modelled as `Except.error`. -/
def refactorSource (isExt : PyStr → Bool)
    (parseExpression : String → Option Expr) (parseModule : String → Option Module)
    (renderExpr : Expr → String) (renderModule : Module → String)
    (source : String) : Except String String :=
  if pyStripStr source = [] then .ok source
  else
    let first : Option ParsedTree :=
      if (pyStripStr source).head? = some '(' then (parseExpression source).map .exprTree
      else (parseModule source).map .modTree
    let tree : Option ParsedTree :=
      match first with
      | some t => some t
      | none => (parseModule source).map .modTree
    match tree with
    | none => .error "Failed to parse source code"
    | some t =>
      match refactorTree isExt t with
      | .exprTree e => .ok (renderExpr e)
      | .modTree m => .ok (renderModule m)

/-! ## The path rename planner (`file_operations.py`)

Paths are modelled as their component lists below the walked root, so
`path_depth` is the list length.  The `os.walk` traversal, the ignore
filtering and `should_rename_file` produce the candidate list
`all_paths_to_rename`; that list is the input here, and
`collect_file_renames`'s sorting and pairing (lines 206-223) are embedded.
`list.sort(key=path_depth, reverse=True)` is a stable sort by depth,
descending, modelled by `List.insertionSort` with the corresponding
relation. -/

abbrev FsPath := List PyStr

/-- `path_depth` (file_operations.py lines 207-211). -/
def pathDepth (p : FsPath) : Nat := p.length

/-- `file_path.suffix == ".py"`: the name ends in `.py` and has a nonempty
stem (a bare `.py` has no suffix in pathlib). -/
def hasPySuffix (name : PyStr) : Bool :=
  decide (3 < name.length) && (name.drop (name.length - 3) == pystr ".py")

/-- `get_new_file_path` (file_operations.py lines 139-153), acting on the
last component of the path. -/
def getNewFilePath (p : FsPath) : FsPath :=
  match p.getLast? with
  | none => p
  | some nm =>
    let parent := p.dropLast
    if hasPySuffix nm then
      let base := nm.take (nm.length - 3)
      let newBase := if isPascalcase base then base else toSnakeN base
      parent ++ [newBase ++ pystr ".py"]
    else
      parent ++ [toSnakeN nm]

/-- `all_paths_to_rename.sort(key=path_depth, reverse=True)`. -/
def sortDeepestFirst (paths : List FsPath) : List FsPath :=
  List.insertionSort (fun a b => pathDepth b ≤ pathDepth a) paths

/-- The tail of `collect_file_renames` (file_operations.py lines 206-223):
sort the collected paths deepest first, and keep `(path, new_path)` for the
paths whose name actually changes. -/
def collectFileRenames (paths : List FsPath) : List (FsPath × FsPath) :=
  (sortDeepestFirst paths).filterMap fun p =>
    let np := getNewFilePath p
    if p ≠ np then some (p, np) else none

/-! ## Name projections

Equality of concrete trees is proved by `rfl`; to prove two concrete trees
*different* we compare the lists of all identifier occurrences, for which
decidable equality is immediate. -/

mutual

def exprNames : Expr → List PyStr
  | .name v => [v]
  | .attribute v a => exprNames v ++ [a]
  | .call f args => exprNames f ++ exprsNames args
  | .intLit _ => []

def exprsNames : List Expr → List PyStr
  | [] => []
  | e :: rest => exprNames e ++ exprsNames rest

end

def aliasNames (al : ImportAlias) : List PyStr :=
  exprNames al.name ++ al.asname.toList

mutual

def stmtNames : Stmt → List PyStr
  | .classDef n body => n :: stmtsNames body
  | .functionDef n params body => n :: params ++ stmtsNames body
  | .assign t v => exprNames t ++ exprNames v
  | .exprStmt e => exprNames e
  | .passStmt => []
  | .importStmt names => names.flatMap aliasNames
  | .importFrom _ module names =>
    (module.map exprNames).getD [] ++ names.flatMap aliasNames

def stmtsNames : List Stmt → List PyStr
  | [] => []
  | s :: rest => stmtNames s ++ stmtsNames rest

end

def moduleNames (m : Module) : List PyStr := stmtsNames m.body

/-! ## Concrete source units used by the claims -/

/-- `class myClass:\n    pass\ninstance = myClass()` — the spec's scenario 3. -/
def c1Input : Module :=
  ⟨[.classDef (pystr "myClass") [.passStmt],
    .assign (.name (pystr "instance")) (.call (.name (pystr "myClass")) [])]⟩

/-- The tree the engine actually produces for `c1Input`: the definition is
renamed to `MyClass`, the later reference to `my_class`. -/
def c1Actual : Module :=
  ⟨[.classDef (pystr "MyClass") [.passStmt],
    .assign (.name (pystr "instance")) (.call (.name (pystr "my_class")) [])]⟩

/-- The tree of the output the claim promises:
`class MyClass:\n    pass\ninstance = MyClass()`. -/
def c1Claimed : Module :=
  ⟨[.classDef (pystr "MyClass") [.passStmt],
    .assign (.name (pystr "instance")) (.call (.name (pystr "MyClass")) [])]⟩

/-- `import numpy as np\nnp.zeros(myVar)`: a qualified call on an external
root whose argument list contains a renamable local name. -/
def c2Input : Module :=
  ⟨[.importStmt [⟨.name (pystr "numpy"), some (pystr "np")⟩],
    .exprStmt (.call (.attribute (.name (pystr "np")) (pystr "zeros"))
      [.name (pystr "myVar")])]⟩

/-- The engine's output for `c2Input`: the callee `np.zeros` is untouched but
the argument becomes `my_var`, so the call expression as a whole changes. -/
def c2Actual : Module :=
  ⟨[.importStmt [⟨.name (pystr "numpy"), some (pystr "np")⟩],
    .exprStmt (.call (.attribute (.name (pystr "np")) (pystr "zeros"))
      [.name (pystr "my_var")])]⟩

/-- `class _myClass:\n    class _myClass:\n        pass\n    x = _MyClass()`.
After one rewrite both classes are `_MyClass` and the reference `_MyClass`
is kept (it is in `class_names` when reached).  On a second rewrite the
outer definition's `Name` child is snake_cased by `leave_Name` into the
class's own scope frame — `processed_names` never suppresses it — so the
body reference `_MyClass` now hits the scope entry and becomes
`_my_class`. -/
def c3Input : Module :=
  ⟨[.classDef (pystr "_myClass")
      [.classDef (pystr "_myClass") [.passStmt],
       .assign (.name (pystr "x")) (.call (.name (pystr "_MyClass")) [])]]⟩

/-- `x = obj.myAttr`: an attribute access whose receiver is an internal
plain name other than `self`. -/
def c5Input : Module :=
  ⟨[.assign (.name (pystr "x")) (.attribute (.name (pystr "obj")) (pystr "myAttr"))]⟩

/-- The engine's output for `c5Input`: the trailing attribute is renamed
even though the receiver is not `self`. -/
def c5Actual : Module :=
  ⟨[.assign (.name (pystr "x")) (.attribute (.name (pystr "obj")) (pystr "my_attr"))]⟩

/-- `from .x import myHelper\nmyHelper()`. -/
def c6Input : Module :=
  ⟨[.importFrom true (some (.name (pystr "x"))) [⟨.name (pystr "myHelper"), none⟩],
    .exprStmt (.call (.name (pystr "myHelper")) [])]⟩

/-- The engine's output for `c6Input`: both the imported name and its use
are snake_cased, the `AliasMap` notwithstanding. -/
def c6Actual : Module :=
  ⟨[.importFrom true (some (.name (pystr "x"))) [⟨.name (pystr "my_helper"), none⟩],
    .exprStmt (.call (.name (pystr "my_helper")) [])]⟩

/-- `a` is a strict filesystem ancestor of `b`: the component list of `a`
is a proper initial segment of that of `b`. -/
def IsStrictAncestor (a b : FsPath) : Prop := (∃ t, a ++ t = b) ∧ a ≠ b

-- Sanity anchors for the model, mirroring behaviours of the source:
example : toSnakeN (pystr "HelloWorld") = pystr "hello_world" := by decide
example : toSnakeN (pystr "parseXMLData") = pystr "parse_xml_data" := by decide
example : toSnakeN (pystr "XMLParser") = pystr "xml_parser" := by decide
example : toSnakeN (pystr "_privateVar") = pystr "_private_var" := by decide
example : toSnakeN (pystr "__init__") = pystr "__init__" := by decide
example : toPascalN (pystr "hello_world") = pystr "HelloWorld" := by decide
example : toPascalN (pystr "XMLParser") = pystr "XMLParser" := by decide
example : toPascalN (pystr "_hello_world") = pystr "_HelloWorld" := by decide
example : toPascalN (pystr "myClass") = pystr "MyClass" := by decide

-- Sanity anchor: the spec's scenario 1.
example :
    refactorModuleTree denylistIsExternal
      ⟨[.functionDef (pystr "myFunction") [pystr "self", pystr "myParam"]
          [.assign (.name (pystr "myVar")) (.intLit 1),
           .exprStmt (.name (pystr "myVar"))]]⟩
    = ⟨[.functionDef (pystr "my_function") [pystr "self", pystr "my_param"]
          [.assign (.name (pystr "my_var")) (.intLit 1),
           .exprStmt (.name (pystr "my_var"))]]⟩ := rfl

/-! ## Claim theorems -/

/-- C1: the claim says that for
`class myClass:\n    pass\ninstance = myClass()` the engine renames the
class definition and its later reference identically to `MyClass`.  The
engine does rename the definition to `MyClass`, but `class_names` records
only the *new* name and the class-scope rename entry is popped with the
class body, so the module-level reference `myClass` falls through to the
snake_case branch and becomes `my_class`, not `MyClass`. -/
theorem c1_class_reference_not_renamed_to_class_name :
    refactorModuleTree denylistIsExternal c1Input = c1Actual ∧
    refactorModuleTree denylistIsExternal c1Input ≠ c1Claimed :=
  ⟨rfl, fun h => absurd (congrArg moduleNames h) (by decide)⟩

/-- C3 (counterexample to idempotence): on
`class _myClass:\n    class _myClass:\n        pass\n    x = _MyClass()`
the first rewrite yields `class _MyClass` twice and keeps `x = _MyClass()`
(guarded by `class_names`), but a second rewrite turns the reference into
`x = _my_class()`: `leave_Name` snake_cases the outer definition's `Name`
child into the class's own scope frame (the `processed_names` guard is
never populated), and the scope lookup precedes the `class_names` guard. -/
theorem c3_refactor_not_idempotent_on_underscore_class :
    refactorModuleTree denylistIsExternal (refactorModuleTree denylistIsExternal c3Input)
      ≠ refactorModuleTree denylistIsExternal c3Input :=
  fun h => absurd (congrArg moduleNames h) (by decide)

/-- C5: the claim says only attributes on the receiver `self` are renamed.
But in LibCST the `attr` of an `Attribute` is itself a `Name` node, and
`visit_Attribute` only suppresses the children for *external* receivers, so
for the internal receiver `obj` the generic `leave_Name` renames the
attribute `myAttr` to `my_attr` even though `leave_Attribute` leaves it
alone. -/
theorem c5_nonself_attribute_renamed :
    refactorModuleTree denylistIsExternal c5Input = c5Actual ∧
    refactorModuleTree denylistIsExternal c5Input ≠ c5Input :=
  ⟨rfl, fun h => absurd (congrArg moduleNames h) (by decide)⟩

/-- C4 (counterexample): `to_pascal_case` does not preserve dunder names:
`to_pascal_case("__a__") = "__A__"`.  Only `to_snake_case` has the dunder
early return; `to_pascal_case` merely preserves the underscore pattern and
pascal-cases the core. -/
theorem c4_toPascal_alters_dunder :
    toPascalN (pystr "__a__") = pystr "__A__" ∧ toPascalN (pystr "__a__") ≠ pystr "__a__" :=
  ⟨by decide, by decide⟩

/-- C4 (amended): `to_snake_case` returns every identifier that starts and
ends with two underscores — in particular every `__x__` with non-empty
core — unchanged. -/
theorem c4_toSnake_preserves_dunder (core : PyStr) :
    toSnakeN (und :: und :: (core ++ [und, und])) = und :: und :: (core ++ [und, und]) := by
  have h1 : startsWithUU (und :: und :: (core ++ [und, und])) = true := rfl
  have h2 : endsWithUU (und :: und :: (core ++ [und, und])) = true := by
    unfold endsWithUU
    have hrev : (und :: und :: (core ++ [und, und])).reverse
        = und :: und :: (core.reverse ++ [und, und]) := by
      simp
    rw [hrev]
    rfl
  unfold toSnakeN
  rw [if_neg (by simp), if_pos (by simp [h1, h2])]

/-- C2 (counterexample): the claim promises the whole qualified call on an
external root unchanged character-for-character.  The skip in
`visit_Attribute` protects only the `Attribute` subtree: for
`import numpy as np\nnp.zeros(myVar)` the argument `myVar` sits in the
`Call`, not in the `Attribute`, and is renamed to `my_var`, so the call
expression in the output differs from the input (while `np` is indeed
classified external). -/
theorem c2_call_argument_renamed_inside_external_call :
    (analyzeModule denylistIsExternal c2Input).externalModules = [pystr "np"] ∧
    refactorModuleTree denylistIsExternal c2Input = c2Actual ∧
    refactorModuleTree denylistIsExternal c2Input ≠ c2Input :=
  ⟨rfl, rfl, fun h => absurd (congrArg moduleNames h) (by decide)⟩

/-- C6 (counterexample): for `from .x import myHelper\nmyHelper()` the
analyzer does record `myHelper` in the `AliasMap`, but the transformer
never consults `internal_aliases`, so both the import alias and the later
call are renamed to `my_helper` — the occurrences are not left unchanged as
the claim states. -/
theorem c6_relative_import_name_renamed :
    (analyzeModule denylistIsExternal c6Input).internalAliases
        = [(pystr "myHelper", pystr "myHelper")] ∧
    refactorModuleTree denylistIsExternal c6Input = c6Actual ∧
    refactorModuleTree denylistIsExternal c6Input ≠ c6Input :=
  ⟨rfl, rfl, fun h => absurd (congrArg moduleNames h) (by decide)⟩

/-- C2 (amended): when the transformer state classifies `m` as external, the
qualified attribute `m.a` is rewritten to itself with no state change, and a
call `m.a(args)` keeps its callee exactly while its arguments are rewritten
as they would be rewritten on their own. -/
theorem c2_external_attribute_and_callee_preserved (st : TState) (m a : PyStr)
    (args : List Expr) (h : st.externalModules.contains m = true) :
    transformExpr st (.attribute (.name m) a) = (st, .attribute (.name m) a) ∧
    transformExpr st (.call (.attribute (.name m) a) args)
      = ((transformExprs st args).1,
         .call (.attribute (.name m) a) (transformExprs st args).2) := by
  have hrecv : receiverExternal st (Expr.name m) = true := h
  have hattr : transformExpr st (.attribute (.name m) a) = (st, .attribute (.name m) a) := by
    unfold transformExpr
    rw [if_pos hrecv]
  refine ⟨hattr, ?_⟩
  unfold transformExpr
  rw [hattr]

/-- Witness for `c2_external_attribute_and_callee_preserved`: in the state
built for `import numpy as np`, the call `np.zeros(10)` is preserved
exactly. -/
theorem c2_external_attribute_and_callee_preserved_witness :
    (initialTState ⟨[pystr "np"], [], []⟩).externalModules.contains (pystr "np") = true ∧
    transformExpr (initialTState ⟨[pystr "np"], [], []⟩)
        (.call (.attribute (.name (pystr "np")) (pystr "zeros")) [.intLit 10])
      = (initialTState ⟨[pystr "np"], [], []⟩,
         .call (.attribute (.name (pystr "np")) (pystr "zeros")) [.intLit 10]) := by
  refine ⟨by decide, ?_⟩
  exact (c2_external_attribute_and_callee_preserved (initialTState ⟨[pystr "np"], [], []⟩)
    (pystr "np") (pystr "zeros") [.intLit 10] (by decide)).2

/-- Recording further aliases never removes an `AliasMap` entry. -/
theorem mem_foldl_recordAlias (p : PyStr × PyStr) :
    ∀ (names : List ImportAlias) (st : AnalyzerState),
      p ∈ st.internalAliases → p ∈ (names.foldl recordAlias st).internalAliases := by
  intro names
  induction names with
  | nil => intro st h; exact h
  | cons al rest ih =>
    intro st h
    exact ih (recordAlias st al) (List.mem_cons_of_mem _ h)

/-- Every alias of the statement ends up in the `AliasMap` after the fold. -/
theorem self_mem_foldl_recordAlias (al : ImportAlias) :
    ∀ (names : List ImportAlias) (st : AnalyzerState), al ∈ names →
      (al.asname.getD (nameValue al.name), nameValue al.name)
        ∈ (names.foldl recordAlias st).internalAliases := by
  intro names
  induction names with
  | nil => intro st h; cases h
  | cons hd rest ih =>
    intro st h
    rcases List.mem_cons.mp h with h | h
    · subst h
      exact mem_foldl_recordAlias _ rest (recordAlias st al) (List.mem_cons_self _ _)
    · exact ih (recordAlias st hd) h

/-- The external-alias fold does not touch `internal_aliases`. -/
theorem internalAliases_foldl_addExternalAlias :
    ∀ (names : List ImportAlias) (st : AnalyzerState),
      (names.foldl addExternalAlias st).internalAliases = st.internalAliases := by
  intro names
  induction names with
  | nil => intro st; rfl
  | cons al rest ih => intro st; rw [List.foldl_cons, ih]; rfl

/-- `visit_ImportFrom` never removes an `AliasMap` entry. -/
theorem internalAliases_mono_importFrom (isExt : PyStr → Bool) (st : AnalyzerState)
    (rel : Bool) (module : Option Expr) (names : List ImportAlias) (p : PyStr × PyStr)
    (hp : p ∈ st.internalAliases) :
    p ∈ (analyzeImportFrom isExt st rel module names).internalAliases := by
  unfold analyzeImportFrom
  cases module with
  | none => exact hp
  | some m =>
    by_cases hrel : rel
    · simp only [hrel, if_pos]
      exact mem_foldl_recordAlias _ names _ hp
    · simp only [hrel, if_neg, Bool.false_eq_true, if_false]
      by_cases hext : isExt (rootModule m) = true
      · simp only [hext, if_pos]
        rw [internalAliases_foldl_addExternalAlias]
        exact hp
      · simp only [hext, Bool.false_eq_true, if_false]
        exact hp

/-- `visit_Import` does not touch `internal_aliases`. -/
theorem internalAliases_analyzeImport (isExt : PyStr → Bool) :
    ∀ (names : List ImportAlias) (st : AnalyzerState),
      (analyzeImport isExt st names).internalAliases = st.internalAliases := by
  intro names
  induction names with
  | nil => intro st; rfl
  | cons al rest ih =>
    intro st
    unfold analyzeImport at ih ⊢
    rw [List.foldl_cons, ih]
    by_cases hext : isExt (rootModule al.name) = true
    · simp [hext]
    · simp [hext]

mutual

/-- The analyzer traversal never removes an `AliasMap` entry (statements). -/
theorem internalAliases_mono_stmt (isExt : PyStr → Bool) (st : AnalyzerState)
    (p : PyStr × PyStr) (s : Stmt) (hp : p ∈ st.internalAliases) :
    p ∈ (analyzeStmt isExt st s).internalAliases := by
  cases s with
  | classDef n body => exact internalAliases_mono_stmts isExt st p body hp
  | functionDef n params body => exact internalAliases_mono_stmts isExt st p body hp
  | assign t v => exact hp
  | exprStmt e => exact hp
  | passStmt => exact hp
  | importStmt names =>
    show p ∈ (analyzeImport isExt st names).internalAliases
    rw [internalAliases_analyzeImport]
    exact hp
  | importFrom rel module names =>
    exact internalAliases_mono_importFrom isExt st rel module names p hp

/-- The analyzer traversal never removes an `AliasMap` entry (lists). -/
theorem internalAliases_mono_stmts (isExt : PyStr → Bool) (st : AnalyzerState)
    (p : PyStr × PyStr) (l : List Stmt) (hp : p ∈ st.internalAliases) :
    p ∈ (analyzeStmts isExt st l).internalAliases := by
  cases l with
  | nil => exact hp
  | cons s rest =>
    exact internalAliases_mono_stmts isExt (analyzeStmt isExt st s) p rest
      (internalAliases_mono_stmt isExt st p s hp)

end

/-- Auxiliary to C6: if the body contains a relative `from .mod import ...`
statement, each of its aliases is recorded in the `AliasMap` produced by
analyzing the body, from any starting state. -/
theorem aliasMap_records_of_mem_body (isExt : PyStr → Bool)
    (module : Expr) (names : List ImportAlias) (al : ImportAlias) (hal : al ∈ names) :
    ∀ (body : List Stmt) (st : AnalyzerState),
      Stmt.importFrom true (some module) names ∈ body →
      (al.asname.getD (nameValue al.name), nameValue al.name)
        ∈ (analyzeStmts isExt st body).internalAliases := by
  intro body
  induction body with
  | nil => intro st h; cases h
  | cons s rest ih =>
    intro st h
    rcases List.mem_cons.mp h with h | h
    · subst h
      refine internalAliases_mono_stmts isExt _ _ rest ?_
      show _ ∈ (analyzeImportFrom isExt st true (some module) names).internalAliases
      unfold analyzeImportFrom
      simp only [if_pos]
      exact self_mem_foldl_recordAlias al names _ hal
    · exact ih (analyzeStmt isExt st s) h

/-- C6 (amended): for every source unit containing a relative import
`from .x import Y` (possibly aliased), the locally bound name (the alias if
present, else `Y`) is recorded in the `AliasMap`, mapped to the imported
name.  The rewriter, however, never consults the `AliasMap` and renames
such names by its ordinary rules (see the counterexample theorem). -/
theorem c6_relative_import_recorded_in_alias_map (isExt : PyStr → Bool) (m : Module)
    (module : Expr) (names : List ImportAlias) (al : ImportAlias)
    (hstmt : Stmt.importFrom true (some module) names ∈ m.body) (hal : al ∈ names) :
    (al.asname.getD (nameValue al.name), nameValue al.name)
      ∈ (analyzeModule isExt m).internalAliases :=
  aliasMap_records_of_mem_body isExt module names al hal m.body ⟨[], [], []⟩ hstmt

/-- Witness for `c6_relative_import_recorded_in_alias_map` at
`from .x import myHelper`. -/
theorem c6_relative_import_recorded_in_alias_map_witness :
    (pystr "myHelper", pystr "myHelper")
      ∈ (analyzeModule denylistIsExternal c6Input).internalAliases := by
  have h := c6_relative_import_recorded_in_alias_map denylistIsExternal c6Input
    (.name (pystr "x")) [⟨.name (pystr "myHelper"), none⟩]
    ⟨.name (pystr "myHelper"), none⟩ (List.mem_cons_self _ _) (List.mem_cons_self _ _)
  exact h

/-- C10: an input that is empty or all whitespace is returned as is, with no
parse attempt and no error (`if not source.strip(): return source`). -/
theorem c10_blank_source_returned_unchanged (isExt : PyStr → Bool)
    (pe : String → Option Expr) (pm : String → Option Module)
    (rex : Expr → String) (rmod : Module → String) (s : String)
    (h : ∀ c ∈ s.data, pyIsSpace c = true) :
    refactorSource isExt pe pm rex rmod s = .ok s := by
  have hstrip : pyStripStr s = [] := by
    unfold pyStripStr
    rw [List.dropWhile_eq_nil_iff.mpr h]
    rfl
  unfold refactorSource
  rw [if_pos hstrip]

/-- Witness for `c10_blank_source_returned_unchanged` on `"  "`. -/
theorem c10_blank_source_returned_unchanged_witness :
    (∀ c ∈ ("  " : String).data, pyIsSpace c = true) ∧
    refactorSource (fun _ => false) (fun _ => none) (fun _ => none)
        (fun _ => "") (fun _ => "") "  " = .ok "  " :=
  ⟨by decide,
   c10_blank_source_returned_unchanged (fun _ => false) (fun _ => none) (fun _ => none)
     (fun _ => "") (fun _ => "") "  " (by decide)⟩

/-- C7: `refactor_source` signals `ParseError` exactly when the parse ladder
is exhausted: the input is not blank, `parse_module` fails, and — when the
stripped input starts with `(`, so that `parse_expression` is attempted
first — `parse_expression` fails as well.  In every other case a string is
returned. -/
theorem c7_parse_error_iff_both_parses_fail (isExt : PyStr → Bool)
    (pe : String → Option Expr) (pm : String → Option Module)
    (rex : Expr → String) (rmod : Module → String) (s : String) :
    refactorSource isExt pe pm rex rmod s = .error "Failed to parse source code"
      ↔ pyStripStr s ≠ [] ∧ pm s = none ∧
          ((pyStripStr s).head? = some '(' → pe s = none) := by
  unfold refactorSource
  by_cases hb : pyStripStr s = []
  · simp [hb]
  · by_cases hp : (pyStripStr s).head? = some '('
    · cases hpe : pe s with
      | some e => simp [hb, hp, hpe, refactorTree]
      | none =>
        cases hpm : pm s with
        | some m => simp [hb, hp, hpe, hpm, refactorTree]
        | none => simp [hb, hp, hpe, hpm]
    · cases hpm : pm s with
      | some m => simp [hb, hp, hpm, refactorTree]
      | none => simp [hb, hp, hpm]

/-! ### Idempotence of `to_snake_case` (C8)

The output of `to_snake_case` is `lead` underscores followed by a core that
contains no uppercase letter and does not start with an underscore; on such
strings every processing step of a second application is the identity. -/

/-- Lowercasing never yields an uppercase letter. -/
theorem isUpperN_pyLowerN (n : Nat) : isUpperN (pyLowerN n) = false := by
  unfold pyLowerN isUpperN
  split <;> rename_i h
  · simp_all
    omega
  · simp_all

/-- Lowercasing a non-uppercase character is the identity. -/
theorem pyLowerN_eq_self (n : Nat) (h : isUpperN n = false) : pyLowerN n = n := by
  simp [pyLowerN, h]

/-- The first regex pass does nothing on a string without uppercase letters. -/
theorem sub1_no_upper : ∀ l : PyStr, (∀ c ∈ l, isUpperN c = false) → sub1 l = l
  | [], _ => rfl
  | [a], _ => rfl
  | a :: b :: t, h => by
    have hb : isUpperN b = false := h b (by simp)
    have hr : sub1 (b :: t) = b :: t :=
      sub1_no_upper (b :: t) (fun c hc => h c (List.mem_cons_of_mem _ hc))
    show (if (isLowerN a || isDigitN a) && isUpperN b then a :: und :: sub1 (b :: t)
          else a :: sub1 (b :: t)) = a :: b :: t
    simp [hb, hr]

/-- The second regex pass does nothing on a string without uppercase letters. -/
theorem sub2_no_upper : ∀ l : PyStr, (∀ c ∈ l, isUpperN c = false) → sub2 l = l
  | [], _ => rfl
  | [a], _ => rfl
  | [a, b], _ => rfl
  | a :: b :: c :: t, h => by
    have ha : isUpperN a = false := h a (by simp)
    have hr : sub2 (b :: c :: t) = b :: c :: t :=
      sub2_no_upper (b :: c :: t) (fun d hd => h d (List.mem_cons_of_mem _ hd))
    show (if isUpperN a && isUpperN b && isLowerN c then a :: und :: sub2 (b :: c :: t)
          else a :: sub2 (b :: c :: t)) = a :: b :: c :: t
    simp [ha, hr]

/-- Lowercasing a string without uppercase letters is the identity. -/
theorem map_pyLowerN_eq_self : ∀ l : PyStr, (∀ c ∈ l, isUpperN c = false) →
    l.map pyLowerN = l
  | [], _ => rfl
  | a :: t, h => by
    rw [List.map_cons, pyLowerN_eq_self a (h a (List.mem_cons_self _ _)),
        map_pyLowerN_eq_self t (fun c hc => h c (List.mem_cons_of_mem _ hc))]

/-- Elements of `lstrip('_')` are elements of the original string. -/
theorem mem_lstripU : ∀ l : PyStr, ∀ c ∈ lstripU l, c ∈ l
  | [], _, hc => hc
  | a :: t, c, hc => by
    by_cases ha : (a == und) = true
    · have : lstripU (a :: t) = lstripU t := by
        simp [lstripU, List.dropWhile_cons, ha]
      exact List.mem_cons_of_mem _ (mem_lstripU t c (this ▸ hc))
    · have : lstripU (a :: t) = a :: t := by
        simp [lstripU, List.dropWhile_cons, ha]
      exact this ▸ hc

/-- `lstrip('_')` of a string not starting with `_` is the identity. -/
theorem lstripU_eq_self (l : PyStr) (h : ∀ c, l.head? = some c → (c == und) = false) :
    lstripU l = l := by
  cases l with
  | nil => rfl
  | cons a t =>
    have ha : (a == und) = false := h a rfl
    simp [lstripU, List.dropWhile_cons, ha]

/-- The head of `lstrip('_')` is never an underscore. -/
theorem head_lstripU_ne_und : ∀ l : PyStr, ∀ c, (lstripU l).head? = some c →
    (c == und) = false
  | [], c, hc => by cases hc
  | a :: t, c, hc => by
    by_cases ha : (a == und) = true
    · have heq : lstripU (a :: t) = lstripU t := by
        simp [lstripU, List.dropWhile_cons, ha]
      exact head_lstripU_ne_und t c (heq ▸ hc)
    · have heq : lstripU (a :: t) = a :: t := by
        simp [lstripU, List.dropWhile_cons, ha]
      rw [heq] at hc
      cases hc
      simpa using ha

/-- Stripping leading underscores in front of an underscore-free head. -/
theorem lstripU_replicate_append (core : PyStr)
    (h : ∀ c, core.head? = some c → (c == und) = false) :
    ∀ L : Nat, lstripU (List.replicate L und ++ core) = core := by
  intro L
  induction L with
  | zero => simpa using lstripU_eq_self core h
  | succ n ih =>
    rw [List.replicate_succ, List.cons_append]
    have : lstripU (und :: (List.replicate n und ++ core))
        = lstripU (List.replicate n und ++ core) := by
      simp [lstripU, List.dropWhile_cons]
    rw [this, ih]

/-- A string of the normal form produced by `to_snake_case` — underscores,
then a core with no uppercase letter and no leading underscore — is a fixed
point of `to_snake_case`. -/
theorem toSnakeN_fixed_of_normal (L : Nat) (core : PyStr)
    (hNoUpper : ∀ c ∈ core, isUpperN c = false)
    (hHead : ∀ c, core.head? = some c → (c == und) = false) :
    toSnakeN (List.replicate L und ++ core) = List.replicate L und ++ core := by
  by_cases hnil : List.replicate L und ++ core = []
  · rw [hnil]; rfl
  by_cases hd : (startsWithUU (List.replicate L und ++ core)
      && endsWithUU (List.replicate L und ++ core)) = true
  · rw [toSnakeN, if_neg hnil, if_pos hd]
  · rw [toSnakeN, if_neg hnil, if_neg hd]
    show List.replicate (leadingU (List.replicate L und ++ core)) und
        ++ lstripU ((sub2 (sub1 (lstripU (List.replicate L und ++ core)))).map pyLowerN)
      = List.replicate L und ++ core
    have hstrip : lstripU (List.replicate L und ++ core) = core :=
      lstripU_replicate_append core hHead L
    have hlen : leadingU (List.replicate L und ++ core) = L := by
      unfold leadingU
      rw [hstrip]
      simp
    rw [hstrip, hlen, sub1_no_upper core hNoUpper, sub2_no_upper core hNoUpper,
        map_pyLowerN_eq_self core hNoUpper, lstripU_eq_self core hHead]

/-- C8: `to_snake_case` is idempotent on every input string. -/
theorem c8_toSnake_idempotent (x : PyStr) : toSnakeN (toSnakeN x) = toSnakeN x := by
  by_cases hx : x = []
  · subst hx; rfl
  by_cases hd : (startsWithUU x && endsWithUU x) = true
  · have h1 : toSnakeN x = x := by rw [toSnakeN, if_neg hx, if_pos hd]
    rw [h1]
    exact h1
  · have hr : toSnakeN x = List.replicate (leadingU x) und
        ++ lstripU ((sub2 (sub1 (lstripU x))).map pyLowerN) := by
      rw [toSnakeN, if_neg hx, if_neg hd]
    rw [hr]
    refine toSnakeN_fixed_of_normal _ _ ?_ (head_lstripU_ne_und _)
    intro c hc
    rcases List.mem_map.mp (mem_lstripU _ c hc) with ⟨d, _, rfl⟩
    exact isUpperN_pyLowerN d

/-! ### Ordering of the rename plan (C9) -/

/-- A strict filesystem ancestor is strictly shallower. -/
theorem depth_lt_of_strict_ancestor (a b : FsPath) (h : IsStrictAncestor a b) :
    pathDepth a < pathDepth b := by
  rcases h with ⟨⟨t, rfl⟩, hne⟩
  have ht : t ≠ [] := by
    rintro rfl
    exact hne (by simp)
  have hpos : 0 < t.length := List.length_pos.mpr ht
  simp only [pathDepth, List.length_append]
  omega

/-- `filterMap` preserves `Pairwise` along a relation transfer. -/
theorem pairwise_filterMap_of_pairwise {α β : Type} {R : α → α → Prop} {S : β → β → Prop}
    (f : α → Option β)
    (hf : ∀ a b x y, R a b → f a = some x → f b = some y → S x y) :
    ∀ l : List α, l.Pairwise R → (l.filterMap f).Pairwise S := by
  intro l hl
  induction hl with
  | nil => simp
  | @cons a rest hhead _ ih =>
    rw [List.filterMap_cons]
    cases hfa : f a with
    | none => exact ih
    | some x =>
      refine List.Pairwise.cons ?_ ih
      intro y hy
      rcases List.mem_filterMap.mp hy with ⟨b, hb, hfb⟩
      exact hf a b x y (hhead b hb) hfa hfb

/-- The planner's sort is pairwise depth-descending. -/
theorem sortDeepestFirst_pairwise (paths : List FsPath) :
    (sortDeepestFirst paths).Pairwise (fun a b => pathDepth b ≤ pathDepth a) := by
  unfold sortDeepestFirst
  haveI : IsTotal FsPath (fun a b => pathDepth b ≤ pathDepth a) :=
    ⟨fun a b => Nat.le_total (pathDepth b) (pathDepth a)⟩
  haveI : IsTrans FsPath (fun a b => pathDepth b ≤ pathDepth a) :=
    ⟨fun _ _ _ hab hbc => Nat.le_trans hbc hab⟩
  exact List.sorted_insertionSort _ paths

/-- C9: in the list returned by the path rename planner, whenever the old
path of one entry is a strict filesystem ancestor of the old path of
another entry, the descendant entry comes first: the plan is sorted deepest
first, and a strict ancestor is strictly shallower, so no entry is followed
by a descendant of its old path. -/
theorem c9_renames_descendants_before_ancestors (paths : List FsPath) :
    (collectFileRenames paths).Pairwise (fun e₁ e₂ => ¬ IsStrictAncestor e₁.1 e₂.1) := by
  unfold collectFileRenames
  refine pairwise_filterMap_of_pairwise _ ?_ _ (sortDeepestFirst_pairwise paths)
  intro a b x y hR hfa hfb hanc
  have hxa : x.1 = a := by
    dsimp only at hfa
    split at hfa
    · cases hfa
      rfl
    · cases hfa
  have hyb : y.1 = b := by
    dsimp only at hfb
    split at hfb
    · cases hfb
      rfl
    · cases hfb
  rw [hxa, hyb] at hanc
  have hlt := depth_lt_of_strict_ancestor a b hanc
  omega

end SnakeShift
